import Mathlib

/-!
Verification of the meal-planner allocation engine.

The definitions below are a shallow embedding of the planner's core:
category normalization, inventory building, the greedy per-category
allocator, the per-meal and per-day drivers, and the 30-day month loop.
Python floats are modelled as exact rationals; a spreadsheet cell that
is missing or non-numeric is modelled as `Option.none` (pandas coerces
it to NaN and the code then fills a default).  Python lists mutated in
place are modelled by explicit state passing: each operation returns
the updated lists alongside its other results.
-/

set_option autoImplicit false

namespace MealPlanner

/-- An inventory item as built by the loaders:
`{item_name, category, servings_available}`. -/
structure InvItem where
  item_name : String
  category : String
  servings_available : ℚ
  deriving Repr, DecidableEq

/-- A consumption record emitted by `allocate_category`.  The Python dict
key `"from"` is rendered as the field `source` (`from` is reserved). -/
structure UsageRecord where
  item_name : String
  category : String
  servings_used : ℚ
  source : String
  deriving Repr, DecidableEq

/-- Result of one scan (box phase or main phase) of `allocate_category`:
the updated item list, the usage records appended during the scan, and
the remaining `needed_left`. -/
structure ScanResult where
  items : List InvItem
  used : List UsageRecord
  needed_left : ℚ
  deriving Repr, DecidableEq

/-- One `for item in list` pass of `allocate_category` (lines 212-233 and
237-258 of `app.py` are this same loop over the box and the main list).
For each item matching the category while `needed_left > 0`: if the item
covers the rest, consume exactly `needed_left` and stop the scan (the
`break`); otherwise consume all of a positive `servings_available`, zero
the item and continue. -/
def allocScan (category source : String) : List InvItem → ℚ → ScanResult
  | [], nl => ⟨[], [], nl⟩
  | item :: rest, nl =>
    if item.category = category ∧ 0 < nl then
      if item.servings_available ≥ nl then
        ⟨{ item with servings_available := item.servings_available - nl } :: rest,
         [⟨item.item_name, category, nl, source⟩], 0⟩
      else if 0 < item.servings_available then
        let r := allocScan category source rest (nl - item.servings_available)
        ⟨{ item with servings_available := 0 } :: r.items,
         ⟨item.item_name, category, item.servings_available, source⟩ :: r.used, r.needed_left⟩
      else
        let r := allocScan category source rest nl
        ⟨item :: r.items, r.used, r.needed_left⟩
    else
      let r := allocScan category source rest nl
      ⟨item :: r.items, r.used, r.needed_left⟩

/-- Result of `allocate_category`: the Python return triple
`(used_details, needed_left, shortage_flag)` together with the two item
lists it mutated in place. -/
structure CatResult where
  used_details : List UsageRecord
  needed_left : ℚ
  shortage_flag : Bool
  box_list : List InvItem
  main_list : List InvItem
  deriving Repr, DecidableEq

/-- `allocate_category` (app.py lines 207-261): scan the box list first;
only if `needed_left > 0` remains, scan the main list; the shortage flag
is `needed_left > 0` at the end. -/
def allocate_category (box_list main_list : List InvItem) (category : String) (needed : ℚ) :
    CatResult :=
  let b := allocScan category "box" box_list needed
  if 0 < b.needed_left then
    let m := allocScan category "main" main_list b.needed_left
    ⟨b.used ++ m.used, m.needed_left, decide (0 < m.needed_left), b.items, m.items⟩
  else
    ⟨b.used, b.needed_left, decide (0 < b.needed_left), b.items, main_list⟩

/-- Sum of `servings_used` over a list of usage records. -/
def usedSum (l : List UsageRecord) : ℚ := (l.map (·.servings_used)).sum

/-- Sum of `servings_available` over the items of a given category. -/
def availSum (category : String) (l : List InvItem) : ℚ :=
  (l.map (fun it => if it.category = category then it.servings_available else 0)).sum

/-- Sum of the positive parts of `servings_available` over the items of a
given category: the servings the greedy scan can actually consume. -/
def posSum (category : String) (l : List InvItem) : ℚ :=
  (l.map (fun it => if it.category = category then max it.servings_available 0 else 0)).sum

/-- Sum of `servings_available` over all items of a list. -/
def totalAvail (l : List InvItem) : ℚ := (l.map (·.servings_available)).sum

/-- Result of `allocate_meal`: the Python pair `(used_items, shortage_any)`
plus the threaded item lists. -/
structure MealResult where
  used_items : List UsageRecord
  shortage_any : Bool
  box_list : List InvItem
  main_list : List InvItem
  deriving Repr, DecidableEq

/-- `allocate_meal` (app.py lines 263-273): iterate the requirement pairs
in order, skip categories with `needed <= 0`, call `allocate_category`
for the rest, extend the usage list and OR the shortage flags.  The
Python dict iterates in insertion order, so the mapping is a pair list. -/
def allocate_meal : List InvItem → List InvItem → List (String × ℚ) → MealResult
  | bl, ml, [] => ⟨[], false, bl, ml⟩
  | bl, ml, (cat, needed) :: rest =>
    if needed ≤ 0 then allocate_meal bl ml rest
    else
      let r := allocate_category bl ml cat needed
      let m := allocate_meal r.box_list r.main_list rest
      ⟨r.used_details ++ m.used_items, r.shortage_flag || m.shortage_any, m.box_list, m.main_list⟩

/-- The 5-4-3-2-1 requirements table `MEALS` (app.py lines 22-44). -/
def MEALS : List (String × List (String × ℚ)) :=
  [("BreakfastPlan",
     [("fruit_veg", 1), ("cereal", 1), ("dairy", 1), ("protein", 0), ("oil", 0)]),
   ("LunchPlan",
     [("fruit_veg", 2), ("cereal", 1), ("dairy", 0), ("protein", 1), ("oil", 1)]),
   ("DinnerPlan",
     [("fruit_veg", 2), ("cereal", 2), ("dairy", 1), ("protein", 0), ("oil", 2)])]

/-- `MEAL_ORDER` (app.py line 46). -/
def MEAL_ORDER : List String := ["BreakfastPlan", "LunchPlan", "DinnerPlan"]

/-- The dict access `MEALS[meal_key]`; every key used by the planner is
present, so the `[]` default is never reached on the code's inputs. -/
def mealRequirements (key : String) : List (String × ℚ) := (MEALS.lookup key).getD []

/-- One element of the `day_meals` list built in `generate_monthly_plan`. -/
structure MealEntry where
  meal_time : String
  meal_plan_requirements : List (String × ℚ)
  used_items : List UsageRecord
  deriving Repr, DecidableEq

/-- Result of the inner meal loop of `generate_monthly_plan`. -/
structure MealsResult where
  day_meals : List MealEntry
  shortage_for_day : Bool
  box_list : List InvItem
  main_list : List InvItem
  deriving Repr, DecidableEq

/-- The `for meal_key in MEAL_ORDER` loop (app.py lines 334-344): run
`allocate_meal`, append the meal entry, and `break` out of the loop as
soon as a meal reports a shortage. -/
def runMeals : List InvItem → List InvItem → List String → MealsResult
  | bl, ml, [] => ⟨[], false, bl, ml⟩
  | bl, ml, key :: rest =>
    let req := mealRequirements key
    let r := allocate_meal bl ml req
    let entry : MealEntry := ⟨key.replace "Plan" "", req, r.used_items⟩
    if r.shortage_any then ⟨[entry], true, r.box_list, r.main_list⟩
    else
      let m := runMeals r.box_list r.main_list rest
      ⟨entry :: m.day_meals, m.shortage_for_day, m.box_list, m.main_list⟩

/-- One row of a day usage summary. -/
structure SummaryEntry where
  item_name : String
  category : String
  servings_used : ℚ
  deriving Repr, DecidableEq

/-- `defaultdict(float)` accumulation keyed by `(item_name, category)`:
an existing key gets its total increased in place, a new key is appended
(insertion order of first appearance preserved). -/
def addUsage : List ((String × String) × ℚ) → (String × String) → ℚ → List ((String × String) × ℚ)
  | [], key, v => [(key, v)]
  | (k, t) :: rest, key, v =>
    if k = key then (k, t + v) :: rest else (k, t) :: addUsage rest key v

/-- Route one usage record into the box map or the main map, following
`used["from"] == "box"` in `summarize_day_usage`. -/
def addRecord (maps : List ((String × String) × ℚ) × List ((String × String) × ℚ))
    (u : UsageRecord) : List ((String × String) × ℚ) × List ((String × String) × ℚ) :=
  if u.source = "box" then (addUsage maps.1 (u.item_name, u.category) u.servings_used, maps.2)
  else (maps.1, addUsage maps.2 (u.item_name, u.category) u.servings_used)

/-- `summarize_day_usage` (app.py lines 278-304): accumulate every meal's
usage records into the two maps, then flatten each map to a list. -/
def summarize_day_usage (day_meals : List MealEntry) :
    List SummaryEntry × List SummaryEntry :=
  let maps := day_meals.foldl (fun acc meal => meal.used_items.foldl addRecord acc) ([], [])
  (maps.1.map (fun p => ⟨p.1.1, p.1.2, p.2⟩), maps.2.map (fun p => ⟨p.1.1, p.1.2, p.2⟩))

/-- A `day_info` dict of `generate_monthly_plan`: the usage keys are only
present (`some`) on a non-shortage day. -/
structure DayInfo where
  day_number : Nat
  meals : List MealEntry
  day_box_usage : Option (List SummaryEntry)
  day_main_usage : Option (List SummaryEntry)
  deriving Repr, DecidableEq

/-- Result of one iteration of the day loop: the emitted `day_info`, the
item lists that the next day starts from, and whether the day was short. -/
structure DayResult where
  info : DayInfo
  box_list : List InvItem
  main_list : List InvItem
  short : Bool
  deriving Repr, DecidableEq

/-- One iteration of the `for day_num in range(1, 31)` loop (app.py lines
327-367).  The Python code deep-copies both lists before the day and, on
shortage, restores the backups and empties `day_meals`; in the pure
embedding the restore is returning the untouched input lists. -/
def processDay (day_num : Nat) (box_list main_list : List InvItem) : DayResult :=
  let r := runMeals box_list main_list MEAL_ORDER
  if r.shortage_for_day then
    ⟨⟨day_num, [], none, none⟩, box_list, main_list, true⟩
  else
    let s := summarize_day_usage r.day_meals
    ⟨⟨day_num, r.day_meals, some s.1, some s.2⟩, r.box_list, r.main_list, false⟩

/-- The allocation part of the month plan: the emitted day list and the
day numbers recorded in `day_shortages`. -/
structure MonthPlan where
  final_daily_plan : List DayInfo
  shortage_days : List Nat
  deriving Repr, DecidableEq

/-- The day loop of `generate_monthly_plan`, threading the mutated lists
from one day into the next. -/
def runDays : List Nat → List InvItem → List InvItem → List DayInfo × List Nat
  | [], _, _ => ([], [])
  | d :: rest, bl, ml =>
    let r := processDay d bl ml
    let m := runDays rest r.box_list r.main_list
    (r.info :: m.1, if r.short then d :: m.2 else m.2)

/-- `generate_monthly_plan` (app.py lines 309-382) from the already-built
item lists: days 1..30 processed in order. -/
def generate_monthly_plan_core (box_list main_list : List InvItem) : MonthPlan :=
  let r := runDays ((List.range 30).map (· + 1)) box_list main_list
  ⟨r.1, r.2⟩

/-- A row of the food reference table; `servings_per_unit = none` models a
missing or non-numeric cell (NaN after `pd.to_numeric(errors="coerce")`). -/
structure RefRow where
  item_name : String
  item_category : String
  servings_per_unit : Option ℚ
  deriving Repr, DecidableEq

/-- A value of `ref_map`. -/
structure RefEntry where
  raw_category : String
  servings_per_unit : ℚ
  deriving Repr, DecidableEq

/-- Python `str(x).strip().lower()`: drop leading and trailing
whitespace, then lowercase each character (spelled out over the
character list so that it evaluates by reduction). -/
def normName (s : String) : String :=
  ⟨((s.data.dropWhile Char.isWhitespace).reverse.dropWhile Char.isWhitespace).reverse.map
      Char.toLower⟩

/-- Python dict assignment `d[k] = v`: replace the value of an existing
key in place, else append the new pair. -/
def insertReplace : List (String × RefEntry) → String → RefEntry → List (String × RefEntry)
  | [], k, v => [(k, v)]
  | (k0, v0) :: rest, k, v =>
    if k0 = k then (k, v) :: rest else (k0, v0) :: insertReplace rest k v

/-- The row loop of `load_food_reference` (app.py lines 75-86): the column
was coerced with `fillna(1)`, so a `none` cell becomes `1`; rows are
written into the dict in order, so a later row overwrites an earlier one
with the same normalized name. -/
def load_food_reference (rows : List RefRow) : List (String × RefEntry) :=
  rows.foldl
    (fun m row =>
      insertReplace m (normName row.item_name)
        ⟨normName row.item_category, row.servings_per_unit.getD 1⟩)
    []

/-- `CATEGORY_MAP` (app.py lines 10-17). -/
def CATEGORY_MAP : List (String × String) :=
  [("seasonal & local fruits/vegetables", "fruit_veg"),
   ("milk & dairy", "dairy"),
   ("meat/fish/eggs/pulses", "protein"),
   ("grains", "cereal"),
   ("oil", "oil")]

/-- An inventory row (`quantity` for the box sheet, `quantity_in_stock`
for the main sheet); `none` models a non-numeric cell (`fillna(0)`). -/
structure InvRow where
  item_name : String
  quantity : Option ℚ
  deriving Repr, DecidableEq

/-- The shared per-row logic of `load_senior_box_data_and_list` (app.py
lines 127-149) and `load_main_inventory_items` (lines 179-202): look the
normalized name up in `ref_map` (miss ⇒ skip the row), map the raw
category through `CATEGORY_MAP` (miss ⇒ skip the row), otherwise emit
the item with `servings_available = quantity * servings_per_unit`. -/
def rowToItem (ref_map : List (String × RefEntry)) (row : InvRow) : Option InvItem :=
  match List.lookup (normName row.item_name) ref_map with
  | none => none
  | some e =>
    match List.lookup e.raw_category CATEGORY_MAP with
    | none => none
    | some cat => some ⟨row.item_name, cat, row.quantity.getD 0 * e.servings_per_unit⟩

/-- The row loop of `load_senior_box_data_and_list`. -/
def load_senior_box_list (ref_map : List (String × RefEntry)) (rows : List InvRow) :
    List InvItem :=
  rows.filterMap (rowToItem ref_map)

/-- The row loop of `load_main_inventory_items`. -/
def load_main_inventory_items (ref_map : List (String × RefEntry)) (rows : List InvRow) :
    List InvItem :=
  rows.filterMap (rowToItem ref_map)

/-- `get_cycle_month` (app.py lines 91-92); Python `%` on a positive
modulus agrees with `Int.emod`. -/
def get_cycle_month (month : Int) : Int := (month - 1) % 3 + 1

/-- The sheet selection of `load_senior_box_data_and_list` (app.py lines
105-110). -/
def senior_box_sheet_name (cycle_month : Int) : String :=
  if cycle_month = 1 then "Senior Box First Month"
  else if cycle_month = 2 then "Senior Box Second Month"
  else "Senior Box Third Month"

/-- The items of a list whose category matches and whose availability is
positive, with their availability set to zero; other items unchanged.
This is the post-state of a scan that ends still short. -/
def zeroMatching (category : String) (items : List InvItem) : List InvItem :=
  items.map (fun it =>
    if it.category = category ∧ 0 < it.servings_available
    then { it with servings_available := 0 } else it)

@[simp] theorem usedSum_nil : usedSum [] = 0 := rfl

@[simp] theorem usedSum_cons (u : UsageRecord) (l : List UsageRecord) :
    usedSum (u :: l) = u.servings_used + usedSum l := by
  simp [usedSum]

@[simp] theorem usedSum_append (a b : List UsageRecord) :
    usedSum (a ++ b) = usedSum a + usedSum b := by
  simp [usedSum]

@[simp] theorem availSum_cons (category : String) (it : InvItem) (l : List InvItem) :
    availSum category (it :: l)
      = (if it.category = category then it.servings_available else 0) + availSum category l := by
  simp [availSum]

@[simp] theorem posSum_cons (category : String) (it : InvItem) (l : List InvItem) :
    posSum category (it :: l)
      = (if it.category = category then max it.servings_available 0 else 0)
        + posSum category l := by
  simp [posSum]

theorem posSum_nonneg (category : String) (l : List InvItem) : 0 ≤ posSum category l := by
  induction l with
  | nil => simp [posSum]
  | cons it rest ih =>
    rw [posSum_cons]
    have : (0 : ℚ) ≤ if it.category = category then max it.servings_available 0 else 0 := by
      split <;> simp [le_max_right]
    linarith

theorem availSum_le_posSum (category : String) (l : List InvItem) :
    availSum category l ≤ posSum category l := by
  induction l with
  | nil => simp [availSum, posSum]
  | cons it rest ih =>
    rw [availSum_cons, posSum_cons]
    have : (if it.category = category then it.servings_available else 0)
        ≤ if it.category = category then max it.servings_available 0 else 0 := by
      split <;> simp [le_max_left]
    linarith

@[simp] theorem totalAvail_cons (it : InvItem) (l : List InvItem) :
    totalAvail (it :: l) = it.servings_available + totalAvail l := by
  simp [totalAvail]

/-- A scan with nothing left to allocate touches nothing. -/
theorem allocScan_nonpos (category source : String) (items : List InvItem) (nl : ℚ)
    (h : nl ≤ 0) : allocScan category source items nl = ⟨items, [], nl⟩ := by
  induction items with
  | nil => rfl
  | cons item rest ih =>
    have hc : ¬(item.category = category ∧ 0 < nl) := fun hx => absurd hx.2 (not_lt.mpr h)
    simp [allocScan, hc, ih]

/-- The scan's conservation law: what was consumed plus what is still
needed equals what was needed at the start. -/
theorem allocScan_usedSum_add (category source : String) (items : List InvItem) (nl : ℚ) :
    usedSum (allocScan category source items nl).used
      + (allocScan category source items nl).needed_left = nl := by
  induction items generalizing nl with
  | nil => simp [allocScan]
  | cons item rest ih =>
    by_cases h1 : item.category = category ∧ 0 < nl
    · by_cases h2 : item.servings_available ≥ nl
      · simp [allocScan, h1, h2, usedSum_cons]
      · by_cases h3 : 0 < item.servings_available
        · have := ih (nl - item.servings_available)
          simp only [allocScan, if_pos h1, if_neg h2, if_pos h3, usedSum_cons]
          linarith
        · simpa [allocScan, h1, h2, h3] using ih nl
    · simpa [allocScan, h1] using ih nl

/-- The consumed total is exactly the decrease of the list's total
availability. -/
theorem allocScan_totalAvail (category source : String) (items : List InvItem) (nl : ℚ) :
    totalAvail (allocScan category source items nl).items
      + usedSum (allocScan category source items nl).used = totalAvail items := by
  induction items generalizing nl with
  | nil => simp [allocScan, totalAvail]
  | cons item rest ih =>
    by_cases h1 : item.category = category ∧ 0 < nl
    · by_cases h2 : item.servings_available ≥ nl
      · simp only [allocScan, if_pos h1, if_pos h2, totalAvail_cons, usedSum_cons, usedSum_nil]
        ring
      · by_cases h3 : 0 < item.servings_available
        · have := ih (nl - item.servings_available)
          simp only [allocScan, if_pos h1, if_neg h2, if_pos h3, totalAvail_cons, usedSum_cons]
          linarith
        · have := ih nl
          simp only [allocScan, if_pos h1, if_neg h2, if_neg h3, totalAvail_cons]
          linarith
    · have := ih nl
      simp only [allocScan, if_neg h1, totalAvail_cons]
      linarith

/-- Every record emitted by a scan consumed a strictly positive amount. -/
theorem allocScan_used_pos (category source : String) (items : List InvItem) (nl : ℚ) :
    ∀ u ∈ (allocScan category source items nl).used, 0 < u.servings_used := by
  induction items generalizing nl with
  | nil => simp [allocScan]
  | cons item rest ih =>
    intro u hu
    by_cases h1 : item.category = category ∧ 0 < nl
    · by_cases h2 : item.servings_available ≥ nl
      · simp [allocScan, h1, h2] at hu
        simp [hu, h1.2]
      · by_cases h3 : 0 < item.servings_available
        · simp only [allocScan, if_pos h1, if_neg h2, if_pos h3, List.mem_cons] at hu
          rcases hu with hu | hu
          · simp [hu, h3]
          · exact ih _ u hu
        · rw [allocScan, if_pos h1, if_neg h2, if_neg h3] at hu
          exact ih _ u hu
    · rw [allocScan, if_neg h1] at hu
      exact ih _ u hu

/-- Every record emitted by a scan is tagged with the scan's source. -/
theorem allocScan_used_source (category source : String) (items : List InvItem) (nl : ℚ) :
    ∀ u ∈ (allocScan category source items nl).used, u.source = source := by
  induction items generalizing nl with
  | nil => simp [allocScan]
  | cons item rest ih =>
    intro u hu
    by_cases h1 : item.category = category ∧ 0 < nl
    · by_cases h2 : item.servings_available ≥ nl
      · simp [allocScan, h1, h2] at hu
        simp [hu]
      · by_cases h3 : 0 < item.servings_available
        · simp only [allocScan, if_pos h1, if_neg h2, if_pos h3, List.mem_cons] at hu
          rcases hu with hu | hu
          · simp [hu]
          · exact ih _ u hu
        · rw [allocScan, if_pos h1, if_neg h2, if_neg h3] at hu
          exact ih _ u hu
    · rw [allocScan, if_neg h1] at hu
      exact ih _ u hu

/-- Every record emitted by a scan names one of the scanned items. -/
theorem allocScan_used_name (category source : String) (items : List InvItem) (nl : ℚ) :
    ∀ u ∈ (allocScan category source items nl).used,
      u.item_name ∈ items.map (·.item_name) := by
  induction items generalizing nl with
  | nil => simp [allocScan]
  | cons item rest ih =>
    intro u hu
    by_cases h1 : item.category = category ∧ 0 < nl
    · by_cases h2 : item.servings_available ≥ nl
      · simp [allocScan, h1, h2] at hu
        simp [hu]
      · by_cases h3 : 0 < item.servings_available
        · simp only [allocScan, if_pos h1, if_neg h2, if_pos h3, List.mem_cons] at hu
          rcases hu with hu | hu
          · simp [hu]
          · simpa using Or.inr (ih _ u hu)
        · rw [allocScan, if_pos h1, if_neg h2, if_neg h3] at hu
          simpa using Or.inr (ih _ u hu)
    · rw [allocScan, if_neg h1] at hu
      simpa using Or.inr (ih _ u hu)

/-- A scan only changes availabilities: the names and categories of the
list, in order, are untouched. -/
theorem allocScan_items_names (category source : String) (items : List InvItem) (nl : ℚ) :
    (allocScan category source items nl).items.map (fun it => (it.item_name, it.category))
      = items.map (fun it => (it.item_name, it.category)) := by
  induction items generalizing nl with
  | nil => simp [allocScan]
  | cons item rest ih =>
    by_cases h1 : item.category = category ∧ 0 < nl
    · by_cases h2 : item.servings_available ≥ nl
      · simp [allocScan, h1, h2]
      · by_cases h3 : 0 < item.servings_available
        · simp [allocScan, h1, h2, h3, ih]
        · simp [allocScan, h1, h2, h3, ih]
    · simp [allocScan, h1, ih]

/-- The greedy scan consumes exactly the needed amount when enough
positive availability is present, and all of it otherwise: the consumed
total is the minimum of the two. -/
theorem allocScan_usedSum_min (category source : String) (items : List InvItem) (nl : ℚ)
    (h : 0 ≤ nl) :
    usedSum (allocScan category source items nl).used = min nl (posSum category items) := by
  induction items generalizing nl with
  | nil => simp [allocScan, posSum, min_eq_right h]
  | cons item rest ih =>
    rcases eq_or_lt_of_le h with hz | hpos
    · rw [allocScan_nonpos category source _ _ (le_of_eq hz.symm), ← hz,
        min_eq_left (posSum_nonneg category (item :: rest))]
      rfl
    · by_cases hm : item.category = category
      · have h1 : item.category = category ∧ 0 < nl := ⟨hm, hpos⟩
        by_cases h2 : item.servings_available ≥ nl
        · have hmax : max item.servings_available 0 = item.servings_available :=
            max_eq_left (le_trans (le_of_lt hpos) h2)
          have hge : nl ≤ posSum category (item :: rest) := by
            rw [posSum_cons, if_pos hm, hmax]
            have := posSum_nonneg category rest
            linarith
          rw [min_eq_left hge]
          simp only [allocScan, if_pos h1, if_pos h2, usedSum_cons, usedSum_nil]
          ring
        · by_cases h3 : 0 < item.servings_available
          · have hmax : max item.servings_available 0 = item.servings_available :=
              max_eq_left (le_of_lt h3)
            have hrec := ih (nl - item.servings_available) (by linarith [not_le.mp h2])
            simp only [allocScan, if_pos h1, if_neg h2, if_pos h3, usedSum_cons, posSum_cons,
              if_pos hm, hmax, hrec]
            rw [← min_add_add_left item.servings_available (nl - item.servings_available)
              (posSum category rest)]
            congr 1
            ring
          · have hmax : max item.servings_available 0 = 0 := max_eq_right (not_lt.mp h3)
            simp only [allocScan, if_pos h1, if_neg h2, if_neg h3, posSum_cons, if_pos hm, hmax,
              zero_add]
            exact ih nl h
      · have h1 : ¬(item.category = category ∧ 0 < nl) := fun hx => hm hx.1
        simp only [allocScan, if_neg h1, posSum_cons, if_neg hm, zero_add]
        exact ih nl h

/-- A scan that ends still short has zeroed every matching item that had
positive availability and left every other item untouched. -/
theorem allocScan_short_items (category source : String) (items : List InvItem) (nl : ℚ)
    (h : 0 < (allocScan category source items nl).needed_left) :
    (allocScan category source items nl).items = zeroMatching category items := by
  induction items generalizing nl with
  | nil => simp [allocScan, zeroMatching]
  | cons item rest ih =>
    rcases le_or_lt nl 0 with hnl | hnl
    · rw [allocScan_nonpos category source _ _ hnl] at h
      exact absurd h (not_lt.mpr hnl)
    · by_cases hm : item.category = category
      · have h1 : item.category = category ∧ 0 < nl := ⟨hm, hnl⟩
        by_cases h2 : item.servings_available ≥ nl
        · simp [allocScan, h1, h2] at h
        · by_cases h3 : 0 < item.servings_available
          · rw [allocScan, if_pos h1, if_neg h2, if_pos h3] at h ⊢
            simp only [zeroMatching, List.map_cons, if_pos (And.intro hm h3)] at *
            exact congrArg _ (ih _ h)
          · rw [allocScan, if_pos h1, if_neg h2, if_neg h3] at h ⊢
            have hcond : ¬(item.category = category ∧ 0 < item.servings_available) :=
              fun hx => h3 hx.2
            simp only [zeroMatching, List.map_cons, if_neg hcond] at *
            exact congrArg _ (ih _ h)
      · have h1 : ¬(item.category = category ∧ 0 < nl) := fun hx => hm hx.1
        rw [allocScan, if_neg h1] at h ⊢
        have hcond : ¬(item.category = category ∧ 0 < item.servings_available) :=
          fun hx => hm hx.1
        simp only [zeroMatching, List.map_cons, if_neg hcond] at *
        exact congrArg _ (ih _ h)

theorem availSum_append (category : String) (a b : List InvItem) :
    availSum category (a ++ b) = availSum category a + availSum category b := by
  simp [availSum]

/-- On lists with non-negative availabilities, the positive-part sum is
the plain sum. -/
theorem posSum_eq_availSum (category : String) (l : List InvItem)
    (h : ∀ it ∈ l, 0 ≤ it.servings_available) :
    posSum category l = availSum category l := by
  induction l with
  | nil => rfl
  | cons it rest ih =>
    rw [posSum_cons, availSum_cons, ih (fun x hx => h x (List.mem_cons_of_mem _ hx))]
    have h0 := h it (List.mem_cons_self _ _)
    by_cases hm : it.category = category <;> simp [hm, max_eq_left h0]

/-- After zeroing, a matching item never retains positive availability. -/
theorem zeroMatching_nonpos (category : String) (l : List InvItem) :
    ∀ it ∈ zeroMatching category l, it.category = category → it.servings_available ≤ 0 := by
  intro it hit hcat
  simp only [zeroMatching, List.mem_map] at hit
  obtain ⟨x, _, hx⟩ := hit
  by_cases hc : x.category = category ∧ 0 < x.servings_available
  · rw [if_pos hc] at hx
    simp [← hx]
  · rw [if_neg hc] at hx
    subst hx
    exact not_lt.mp (fun hpos => hc ⟨hcat, hpos⟩)

/-- The shortage flag of `allocate_category` is exactly
`needed_left > 0` at return time. -/
theorem allocate_category_flag (box_list main_list : List InvItem) (category : String)
    (needed : ℚ) :
    (allocate_category box_list main_list category needed).shortage_flag
      = decide (0 < (allocate_category box_list main_list category needed).needed_left) := by
  simp only [allocate_category]
  by_cases hb : 0 < (allocScan category "box" box_list needed).needed_left
  · rw [if_pos hb]
  · rw [if_neg hb]

/-- Master quantitative lemma: for a non-negative request, the allocator
consumes `min needed (posSum box + posSum main)` and is left needing the
difference. -/
theorem allocate_category_spec (box_list main_list : List InvItem) (category : String)
    (needed : ℚ) (h : 0 ≤ needed) :
    usedSum (allocate_category box_list main_list category needed).used_details
        = min needed (posSum category box_list + posSum category main_list)
      ∧ (allocate_category box_list main_list category needed).needed_left
        = needed - min needed (posSum category box_list + posSum category main_list) := by
  have hbu := allocScan_usedSum_min category "box" box_list needed h
  have hba := allocScan_usedSum_add category "box" box_list needed
  have hPm := posSum_nonneg category main_list
  simp only [allocate_category]
  by_cases hb : 0 < (allocScan category "box" box_list needed).needed_left
  · have hblt : min needed (posSum category box_list) < needed := by linarith
    have hmin : min needed (posSum category box_list) = posSum category box_list := by
      rcases min_cases needed (posSum category box_list) with ⟨he, _⟩ | ⟨he, _⟩
      · rw [he] at hblt
        exact absurd hblt (lt_irrefl needed)
      · exact he
    have hbleft : (allocScan category "box" box_list needed).needed_left
        = needed - posSum category box_list := by
      rw [hmin] at hbu; linarith
    have h2 : 0 ≤ (allocScan category "box" box_list needed).needed_left := le_of_lt hb
    have hmu := allocScan_usedSum_min category "main" main_list _ h2
    have hma := allocScan_usedSum_add category "main" main_list
      (allocScan category "box" box_list needed).needed_left
    have hkey : posSum category box_list
          + min (needed - posSum category box_list) (posSum category main_list)
        = min needed (posSum category box_list + posSum category main_list) := by
      rw [← min_add_add_left (posSum category box_list) (needed - posSum category box_list)
        (posSum category main_list)]
      congr 1
      ring
    rw [if_pos hb]
    dsimp only
    rw [hbleft] at hmu hma ⊢
    constructor
    · rw [usedSum_append, hbu, hmin, hmu, ← hkey]
    · rw [← hkey]
      linarith
  · have hge : needed ≤ min needed (posSum category box_list) := by linarith
    have hmin : min needed (posSum category box_list) = needed :=
      le_antisymm (min_le_left _ _) hge
    have hPb : needed ≤ posSum category box_list := by
      have := min_le_right needed (posSum category box_list)
      linarith [hmin ▸ this]
    have hmin2 : min needed (posSum category box_list + posSum category main_list) = needed :=
      min_eq_left (by linarith)
    rw [if_neg hb]
    exact ⟨by rw [hbu, hmin, hmin2], by rw [hmin2]; linarith⟩

/-- Unfolding of `allocate_category` when the box scan ends short. -/
theorem allocate_category_of_short (bl ml : List InvItem) (c : String) (n : ℚ)
    (hb : 0 < (allocScan c "box" bl n).needed_left) :
    allocate_category bl ml c n
      = ⟨(allocScan c "box" bl n).used
           ++ (allocScan c "main" ml (allocScan c "box" bl n).needed_left).used,
         (allocScan c "main" ml (allocScan c "box" bl n).needed_left).needed_left,
         decide (0 < (allocScan c "main" ml (allocScan c "box" bl n).needed_left).needed_left),
         (allocScan c "box" bl n).items,
         (allocScan c "main" ml (allocScan c "box" bl n).needed_left).items⟩ := by
  simp only [allocate_category]
  rw [if_pos hb]

/-- Unfolding of `allocate_category` when the box scan already covered
the request. -/
theorem allocate_category_of_covered (bl ml : List InvItem) (c : String) (n : ℚ)
    (hb : ¬0 < (allocScan c "box" bl n).needed_left) :
    allocate_category bl ml c n
      = ⟨(allocScan c "box" bl n).used, (allocScan c "box" bl n).needed_left,
         decide (0 < (allocScan c "box" bl n).needed_left),
         (allocScan c "box" bl n).items, ml⟩ := by
  simp only [allocate_category]
  rw [if_neg hb]

/-- C1 (counterexample): as stated the claim ranges over every `needed`
at most the total availability, including a negative one; at
`needed = -1` with ample supply the allocator returns no usage records,
so the used total is `0`, not `needed`. -/
theorem C1_claim_counterexample :
    ((-1 : ℚ) ≤ availSum "cereal" ([⟨"a", "cereal", 10⟩] ++ ([] : List InvItem)))
      ∧ (allocate_category [⟨"a", "cereal", 10⟩] [] "cereal" (-1)).shortage_flag = false
      ∧ usedSum (allocate_category [⟨"a", "cereal", 10⟩] [] "cereal" (-1)).used_details
          ≠ -1 := by
  norm_num [allocate_category, allocScan, usedSum, availSum]

/-- C1 (amended): for every category and every `needed` with
`0 ≤ needed ≤` the sum of `servings_available` over the matching items of
both lists, `allocate_category` returns `is_short = false` and the sum of
`servings_used` over the returned records equals `needed` exactly. -/
theorem C1_sufficient_supply (box_list main_list : List InvItem) (category : String)
    (needed : ℚ) (h0 : 0 ≤ needed)
    (h1 : needed ≤ availSum category (box_list ++ main_list)) :
    (allocate_category box_list main_list category needed).shortage_flag = false
      ∧ usedSum (allocate_category box_list main_list category needed).used_details
          = needed := by
  obtain ⟨hu, hl⟩ := allocate_category_spec box_list main_list category needed h0
  have hsplit := availSum_append category box_list main_list
  have hb := availSum_le_posSum category box_list
  have hm := availSum_le_posSum category main_list
  have hmin : min needed (posSum category box_list + posSum category main_list) = needed :=
    min_eq_left (by rw [hsplit] at h1; linarith)
  rw [hmin] at hu hl
  refine ⟨?_, hu⟩
  rw [allocate_category_flag, hl, sub_self]
  simp

/-- C1 witness: a concrete split allocation that exactly covers the
request. -/
theorem C1_sufficient_supply_witness :
    ((0 : ℚ) ≤ 4)
      ∧ ((4 : ℚ) ≤ availSum "cereal"
            ([⟨"a", "cereal", 1⟩, ⟨"b", "cereal", 2⟩] ++ [⟨"m", "cereal", 5⟩]))
      ∧ ((allocate_category [⟨"a", "cereal", 1⟩, ⟨"b", "cereal", 2⟩] [⟨"m", "cereal", 5⟩]
            "cereal" 4).shortage_flag = false
          ∧ usedSum (allocate_category [⟨"a", "cereal", 1⟩, ⟨"b", "cereal", 2⟩]
              [⟨"m", "cereal", 5⟩] "cereal" 4).used_details = 4) :=
  ⟨by norm_num, by norm_num [availSum],
    C1_sufficient_supply [⟨"a", "cereal", 1⟩, ⟨"b", "cereal", 2⟩] [⟨"m", "cereal", 5⟩]
      "cereal" 4 (by norm_num) (by norm_num [availSum])⟩

/-- C2 (counterexample): an item may carry a negative availability (a
negative spreadsheet quantity survives the loaders); such an item is
never consumed, so the shortfall is not `needed` minus the signed total:
here the shortfall is `1`, not `1 - (-5) = 6`. -/
theorem C2_claim_counterexample :
    (availSum "cereal" ([⟨"a", "cereal", -5⟩] ++ ([] : List InvItem)) < 1)
      ∧ (allocate_category [⟨"a", "cereal", -5⟩] [] "cereal" 1).needed_left
          ≠ 1 - availSum "cereal" ([⟨"a", "cereal", -5⟩] ++ ([] : List InvItem)) := by
  norm_num [allocate_category, allocScan, availSum]

/-- C2 (amended): when all availabilities are non-negative and `needed`
strictly exceeds the total matching availability, `allocate_category`
reports a shortage with shortfall `needed` minus the total, and every
matching item that had positive servings is consumed to zero (all other
items are untouched). -/
theorem C2_shortage (box_list main_list : List InvItem) (category : String) (needed : ℚ)
    (hnn : ∀ it ∈ box_list ++ main_list, 0 ≤ it.servings_available)
    (hgt : availSum category (box_list ++ main_list) < needed) :
    (allocate_category box_list main_list category needed).shortage_flag = true
      ∧ (allocate_category box_list main_list category needed).needed_left
          = needed - availSum category (box_list ++ main_list)
      ∧ (allocate_category box_list main_list category needed).box_list
          = zeroMatching category box_list
      ∧ (allocate_category box_list main_list category needed).main_list
          = zeroMatching category main_list := by
  have hnb : ∀ it ∈ box_list, 0 ≤ it.servings_available :=
    fun it h => hnn it (List.mem_append_left _ h)
  have hnm : ∀ it ∈ main_list, 0 ≤ it.servings_available :=
    fun it h => hnn it (List.mem_append_right _ h)
  have hpb := posSum_eq_availSum category box_list hnb
  have hpm := posSum_eq_availSum category main_list hnm
  have hsplit := availSum_append category box_list main_list
  have h0b : 0 ≤ availSum category box_list := hpb ▸ posSum_nonneg category box_list
  have h0m : 0 ≤ availSum category main_list := hpm ▸ posSum_nonneg category main_list
  rw [hsplit] at hgt
  have h0 : 0 ≤ needed := by linarith
  have hbu := allocScan_usedSum_min category "box" box_list needed h0
  have hba := allocScan_usedSum_add category "box" box_list needed
  have hminb : min needed (posSum category box_list) = posSum category box_list :=
    min_eq_right (by rw [hpb]; linarith)
  have hbleft_eq : (allocScan category "box" box_list needed).needed_left
      = needed - availSum category box_list := by
    rw [hminb, hpb] at hbu; linarith
  have hbleft_pos : 0 < (allocScan category "box" box_list needed).needed_left := by
    rw [hbleft_eq]; linarith
  have hmu := allocScan_usedSum_min category "main" main_list _ (le_of_lt hbleft_pos)
  have hma := allocScan_usedSum_add category "main" main_list
    (allocScan category "box" box_list needed).needed_left
  have hminm : min (allocScan category "box" box_list needed).needed_left
        (posSum category main_list) = posSum category main_list :=
    min_eq_right (by rw [hbleft_eq, hpm]; linarith)
  have hmleft_eq : (allocScan category "main" main_list
        (allocScan category "box" box_list needed).needed_left).needed_left
      = needed - availSum category box_list - availSum category main_list := by
    rw [hminm, hpm] at hmu
    rw [hbleft_eq] at hmu hma ⊢
    linarith
  have hmleft_pos : 0 < (allocScan category "main" main_list
      (allocScan category "box" box_list needed).needed_left).needed_left := by
    rw [hmleft_eq]; linarith
  rw [allocate_category_of_short box_list main_list category needed hbleft_pos]
  dsimp only
  refine ⟨decide_eq_true hmleft_pos, by rw [hmleft_eq, hsplit]; ring,
    allocScan_short_items category "box" box_list needed hbleft_pos,
    allocScan_short_items category "main" main_list _ hmleft_pos⟩

/-- C2 witness: one box item with a single serving, a request for three. -/
theorem C2_shortage_witness :
    (∀ it ∈ ([⟨"a", "cereal", 1⟩] : List InvItem) ++ ([] : List InvItem),
        0 ≤ it.servings_available)
      ∧ (availSum "cereal" (([⟨"a", "cereal", 1⟩] : List InvItem) ++ ([] : List InvItem)) < 3)
      ∧ ((allocate_category [⟨"a", "cereal", 1⟩] [] "cereal" 3).shortage_flag = true
          ∧ (allocate_category [⟨"a", "cereal", 1⟩] [] "cereal" 3).needed_left
              = 3 - availSum "cereal" (([⟨"a", "cereal", 1⟩] : List InvItem) ++ ([] : List InvItem))
          ∧ (allocate_category [⟨"a", "cereal", 1⟩] [] "cereal" 3).box_list
              = zeroMatching "cereal" [⟨"a", "cereal", 1⟩]
          ∧ (allocate_category [⟨"a", "cereal", 1⟩] [] "cereal" 3).main_list
              = zeroMatching "cereal" []) :=
  ⟨by norm_num, by norm_num [availSum],
    C2_shortage [⟨"a", "cereal", 1⟩] [] "cereal" 3 (by norm_num) (by norm_num [availSum])⟩

/-- C3 (counterexample): a box item holding a negative availability is
skipped, not consumed: a main item can then be used while that box
item's `servings_available` was never reduced to zero. -/
theorem C3_claim_counterexample :
    (∃ u ∈ (allocate_category [⟨"a", "cereal", -3⟩] [⟨"m", "cereal", 5⟩]
        "cereal" 2).used_details, u.source = "main")
      ∧ ∃ it ∈ (allocate_category [⟨"a", "cereal", -3⟩] [⟨"m", "cereal", 5⟩]
          "cereal" 2).box_list, it.category = "cereal" ∧ it.servings_available ≠ 0 := by
  norm_num [allocate_category, allocScan]

/-- C3 (amended): if `allocate_category` returns any usage record drawn
from the main list, then `needed_left` was still positive after the full
box scan, and every box item of the requested category has been left
with no positive servings (each positive one was consumed to zero). -/
theorem C3_box_exhausted_before_main (box_list main_list : List InvItem) (category : String)
    (needed : ℚ) (u : UsageRecord)
    (hu : u ∈ (allocate_category box_list main_list category needed).used_details)
    (hsrc : u.source = "main") :
    0 < (allocScan category "box" box_list needed).needed_left
      ∧ ∀ it ∈ (allocate_category box_list main_list category needed).box_list,
          it.category = category → it.servings_available ≤ 0 := by
  by_cases hb : 0 < (allocScan category "box" box_list needed).needed_left
  · refine ⟨hb, ?_⟩
    rw [allocate_category_of_short box_list main_list category needed hb]
    dsimp only
    rw [allocScan_short_items category "box" box_list needed hb]
    exact zeroMatching_nonpos category box_list
  · rw [allocate_category_of_covered box_list main_list category needed hb] at hu
    dsimp only at hu
    have hbox := allocScan_used_source category "box" box_list needed u hu
    rw [hsrc] at hbox
    exact absurd hbox (by decide)

/-- C3 witness: one insufficient box item, the rest drawn from main. -/
theorem C3_box_exhausted_before_main_witness :
    ((⟨"m", "cereal", 1, "main"⟩ : UsageRecord)
        ∈ (allocate_category [⟨"b", "cereal", 1⟩] [⟨"m", "cereal", 5⟩]
            "cereal" 2).used_details)
      ∧ (UsageRecord.source ⟨"m", "cereal", 1, "main"⟩ = "main")
      ∧ (0 < (allocScan "cereal" "box" [⟨"b", "cereal", 1⟩] 2).needed_left
          ∧ ∀ it ∈ (allocate_category [⟨"b", "cereal", 1⟩] [⟨"m", "cereal", 5⟩]
              "cereal" 2).box_list, it.category = "cereal" → it.servings_available ≤ 0) :=
  ⟨by norm_num [allocate_category, allocScan], rfl,
    C3_box_exhausted_before_main [⟨"b", "cereal", 1⟩] [⟨"m", "cereal", 5⟩] "cereal" 2
      ⟨"m", "cereal", 1, "main"⟩ (by norm_num [allocate_category, allocScan]) rfl⟩

/-- C9: in every call to `allocate_category` the sum of `servings_used`
over the returned records equals the total decrease of
`servings_available` across both lists, and every returned record used a
strictly positive amount. -/
theorem C9_conservation (box_list main_list : List InvItem) (category : String) (needed : ℚ) :
    usedSum (allocate_category box_list main_list category needed).used_details
        = (totalAvail box_list + totalAvail main_list)
          - (totalAvail (allocate_category box_list main_list category needed).box_list
             + totalAvail (allocate_category box_list main_list category needed).main_list)
      ∧ ((allocate_category box_list main_list category needed).used_details.all
          fun u => decide (0 < u.servings_used)) = true := by
  have hbt := allocScan_totalAvail category "box" box_list needed
  have hbp := allocScan_used_pos category "box" box_list needed
  by_cases hb : 0 < (allocScan category "box" box_list needed).needed_left
  · have hmt := allocScan_totalAvail category "main" main_list
      (allocScan category "box" box_list needed).needed_left
    have hmp := allocScan_used_pos category "main" main_list
      (allocScan category "box" box_list needed).needed_left
    rw [allocate_category_of_short box_list main_list category needed hb]
    dsimp only
    constructor
    · rw [usedSum_append]; linarith
    · rw [List.all_eq_true]
      intro u hu
      rw [List.mem_append] at hu
      rcases hu with hu | hu
      · exact decide_eq_true (hbp u hu)
      · exact decide_eq_true (hmp u hu)
  · rw [allocate_category_of_covered box_list main_list category needed hb]
    dsimp only
    refine ⟨by linarith, ?_⟩
    rw [List.all_eq_true]
    intro u hu
    exact decide_eq_true (hbp u hu)

/-- C10: a call with `needed ≤ 0` touches nothing: no usage records, no
shortage, and the returned shortfall is `needed` itself. -/
theorem C10_nonpositive_needed (box_list main_list : List InvItem) (category : String)
    (needed : ℚ) (h : needed ≤ 0) :
    allocate_category box_list main_list category needed
      = ⟨[], needed, false, box_list, main_list⟩ := by
  simp only [allocate_category, allocScan_nonpos category "box" box_list needed h]
  rw [if_neg (not_lt.mpr h), decide_eq_false (not_lt.mpr h)]

/-- C10 witness: a negative request leaves the state untouched and is
returned as a negative shortfall. -/
theorem C10_nonpositive_needed_witness :
    ((-2 : ℚ) ≤ 0)
      ∧ allocate_category [⟨"a", "cereal", 10⟩] [] "cereal" (-2)
          = ⟨[], -2, false, [⟨"a", "cereal", 10⟩], []⟩ :=
  ⟨by norm_num,
    C10_nonpositive_needed [⟨"a", "cereal", 10⟩] [] "cereal" (-2) (by norm_num)⟩

/-- C8: `get_cycle_month` computes `((month - 1) mod 3) + 1` for every
integer month; month 4 yields cycle 1; months 4 and 7 yield the same
cycle (the map is 3-periodic) and hence select the same rotating box
sheet. -/
theorem C8_cycle_month :
    (∀ month : Int, get_cycle_month month = (month - 1) % 3 + 1)
      ∧ get_cycle_month 4 = 1
      ∧ get_cycle_month 7 = get_cycle_month 4
      ∧ (∀ month : Int, get_cycle_month (month + 3) = get_cycle_month month)
      ∧ senior_box_sheet_name (get_cycle_month 7)
          = senior_box_sheet_name (get_cycle_month 4) := by
  refine ⟨fun _ => rfl, by decide, by decide, fun m => ?_, by decide⟩
  unfold get_cycle_month
  omega

/-- C4: a day whose meal loop reports a shortage leaves both item lists
exactly as they were before the day, and its emitted `day_info` has an
empty meal list and carries neither usage summary. -/
theorem C4_day_rollback (day_num : Nat) (bl ml : List InvItem)
    (h : (processDay day_num bl ml).short = true) :
    (processDay day_num bl ml).box_list = bl
      ∧ (processDay day_num bl ml).main_list = ml
      ∧ (processDay day_num bl ml).info.meals = []
      ∧ (processDay day_num bl ml).info.day_box_usage = none
      ∧ (processDay day_num bl ml).info.day_main_usage = none := by
  by_cases hs : (runMeals bl ml MEAL_ORDER).shortage_for_day
  · simp [processDay, hs]
  · simp [processDay, hs] at h

/-- C4 witness: with empty inventory the first meal is short, so day 1 is
a shortage day. -/
theorem C4_day_rollback_witness :
    (processDay 1 [] []).short = true
      ∧ ((processDay 1 [] []).box_list = []
          ∧ (processDay 1 [] []).main_list = []
          ∧ (processDay 1 [] []).info.meals = []
          ∧ (processDay 1 [] []).info.day_box_usage = none
          ∧ (processDay 1 [] []).info.day_main_usage = none) :=
  ⟨by norm_num [processDay, runMeals, allocate_meal, allocate_category, allocScan,
      mealRequirements, MEALS, MEAL_ORDER],
    C4_day_rollback 1 [] []
      (by norm_num [processDay, runMeals, allocate_meal, allocate_category, allocScan,
        mealRequirements, MEALS, MEAL_ORDER])⟩

/-- `allocate_meal` over a concatenated requirement list runs the second
part from the state the first part left behind. -/
theorem allocate_meal_append (bl ml : List InvItem) (p1 p2 : List (String × ℚ)) :
    allocate_meal bl ml (p1 ++ p2)
      = ⟨(allocate_meal bl ml p1).used_items
           ++ (allocate_meal (allocate_meal bl ml p1).box_list
                 (allocate_meal bl ml p1).main_list p2).used_items,
         (allocate_meal bl ml p1).shortage_any
           || (allocate_meal (allocate_meal bl ml p1).box_list
                 (allocate_meal bl ml p1).main_list p2).shortage_any,
         (allocate_meal (allocate_meal bl ml p1).box_list
            (allocate_meal bl ml p1).main_list p2).box_list,
         (allocate_meal (allocate_meal bl ml p1).box_list
            (allocate_meal bl ml p1).main_list p2).main_list⟩ := by
  induction p1 generalizing bl ml with
  | nil => simp [allocate_meal]
  | cons hd tl ih =>
    obtain ⟨cat, needed⟩ := hd
    by_cases h : needed ≤ 0
    · simp only [List.cons_append, allocate_meal, if_pos h]
      exact ih bl ml
    · simp only [List.cons_append, allocate_meal, if_neg h, List.append_eq]
      rw [ih]
      simp [allocate_meal, if_neg h, List.append_assoc, Bool.or_assoc]

/-- C5: a shortage in one category does not stop `allocate_meal`: the
categories after it are still allocated, starting from the item lists as
the short category left them; the usage records of the parts before and
after the shortage are all retained, in order; and the returned lists
are the fully mutated ones (no rollback at this level). -/
theorem C5_no_early_termination (bl ml : List InvItem) (p1 p2 : List (String × ℚ))
    (cat : String) (needed : ℚ) (hpos : 0 < needed)
    (hshort : (allocate_category (allocate_meal bl ml p1).box_list
        (allocate_meal bl ml p1).main_list cat needed).shortage_flag = true) :
    allocate_meal bl ml (p1 ++ (cat, needed) :: p2)
      = ⟨(allocate_meal bl ml p1).used_items
           ++ ((allocate_category (allocate_meal bl ml p1).box_list
                  (allocate_meal bl ml p1).main_list cat needed).used_details
               ++ (allocate_meal
                     (allocate_category (allocate_meal bl ml p1).box_list
                        (allocate_meal bl ml p1).main_list cat needed).box_list
                     (allocate_category (allocate_meal bl ml p1).box_list
                        (allocate_meal bl ml p1).main_list cat needed).main_list
                     p2).used_items),
         true,
         (allocate_meal
            (allocate_category (allocate_meal bl ml p1).box_list
               (allocate_meal bl ml p1).main_list cat needed).box_list
            (allocate_category (allocate_meal bl ml p1).box_list
               (allocate_meal bl ml p1).main_list cat needed).main_list
            p2).box_list,
         (allocate_meal
            (allocate_category (allocate_meal bl ml p1).box_list
               (allocate_meal bl ml p1).main_list cat needed).box_list
            (allocate_category (allocate_meal bl ml p1).box_list
               (allocate_meal bl ml p1).main_list cat needed).main_list
            p2).main_list⟩ := by
  rw [allocate_meal_append]
  simp only [allocate_meal, if_neg (not_le.mpr hpos)]
  rw [hshort]
  simp

/-- C5 witness: oil is allocated first, protein is short, cereal is still
allocated afterwards from the mutated lists. -/
theorem C5_no_early_termination_witness :
    ((0 : ℚ) < 1)
      ∧ (allocate_category
            (allocate_meal [] [⟨"x", "cereal", 5⟩, ⟨"o", "oil", 2⟩] [("oil", 1)]).box_list
            (allocate_meal [] [⟨"x", "cereal", 5⟩, ⟨"o", "oil", 2⟩] [("oil", 1)]).main_list
            "protein" 1).shortage_flag = true
      ∧ allocate_meal [] [⟨"x", "cereal", 5⟩, ⟨"o", "oil", 2⟩]
            ([("oil", 1)] ++ ("protein", 1) :: [("cereal", 1)])
          = ⟨(allocate_meal [] [⟨"x", "cereal", 5⟩, ⟨"o", "oil", 2⟩] [("oil", 1)]).used_items
               ++ ((allocate_category
                      (allocate_meal [] [⟨"x", "cereal", 5⟩, ⟨"o", "oil", 2⟩]
                        [("oil", 1)]).box_list
                      (allocate_meal [] [⟨"x", "cereal", 5⟩, ⟨"o", "oil", 2⟩]
                        [("oil", 1)]).main_list
                      "protein" 1).used_details
                   ++ (allocate_meal
                         (allocate_category
                            (allocate_meal [] [⟨"x", "cereal", 5⟩, ⟨"o", "oil", 2⟩]
                              [("oil", 1)]).box_list
                            (allocate_meal [] [⟨"x", "cereal", 5⟩, ⟨"o", "oil", 2⟩]
                              [("oil", 1)]).main_list
                            "protein" 1).box_list
                         (allocate_category
                            (allocate_meal [] [⟨"x", "cereal", 5⟩, ⟨"o", "oil", 2⟩]
                              [("oil", 1)]).box_list
                            (allocate_meal [] [⟨"x", "cereal", 5⟩, ⟨"o", "oil", 2⟩]
                              [("oil", 1)]).main_list
                            "protein" 1).main_list
                         [("cereal", 1)]).used_items),
             true,
             (allocate_meal
                (allocate_category
                   (allocate_meal [] [⟨"x", "cereal", 5⟩, ⟨"o", "oil", 2⟩]
                     [("oil", 1)]).box_list
                   (allocate_meal [] [⟨"x", "cereal", 5⟩, ⟨"o", "oil", 2⟩]
                     [("oil", 1)]).main_list
                   "protein" 1).box_list
                (allocate_category
                   (allocate_meal [] [⟨"x", "cereal", 5⟩, ⟨"o", "oil", 2⟩]
                     [("oil", 1)]).box_list
                   (allocate_meal [] [⟨"x", "cereal", 5⟩, ⟨"o", "oil", 2⟩]
                     [("oil", 1)]).main_list
                   "protein" 1).main_list
                [("cereal", 1)]).box_list,
             (allocate_meal
                (allocate_category
                   (allocate_meal [] [⟨"x", "cereal", 5⟩, ⟨"o", "oil", 2⟩]
                     [("oil", 1)]).box_list
                   (allocate_meal [] [⟨"x", "cereal", 5⟩, ⟨"o", "oil", 2⟩]
                     [("oil", 1)]).main_list
                   "protein" 1).box_list
                (allocate_category
                   (allocate_meal [] [⟨"x", "cereal", 5⟩, ⟨"o", "oil", 2⟩]
                     [("oil", 1)]).box_list
                   (allocate_meal [] [⟨"x", "cereal", 5⟩, ⟨"o", "oil", 2⟩]
                     [("oil", 1)]).main_list
                   "protein" 1).main_list
                [("cereal", 1)]).main_list⟩ :=
  ⟨by norm_num,
    by
      norm_num [allocate_meal, allocate_category, allocScan]
      decide,
    C5_no_early_termination [] [⟨"x", "cereal", 5⟩, ⟨"o", "oil", 2⟩] [("oil", 1)]
      [("cereal", 1)] "protein" 1 (by norm_num)
      (by
        norm_num [allocate_meal, allocate_category, allocScan]
        decide)⟩

/-- Looking up the key just written by a dict assignment returns the
newly written value. -/
theorem lookup_insertReplace (m : List (String × RefEntry)) (k : String) (v : RefEntry) :
    List.lookup k (insertReplace m k v) = some v := by
  induction m with
  | nil => simp [insertReplace, List.lookup]
  | cons p rest ih =>
    obtain ⟨k0, v0⟩ := p
    by_cases h : k0 = k
    · simp [insertReplace, h, List.lookup]
    · have hbeq : (k == k0) = false :=
        beq_eq_false_iff_ne.mpr (fun he => h he.symm)
      simp only [insertReplace, if_neg h, List.lookup, hbeq]
      exact ih

/-- C6 (counterexample): a numeric but negative `servings_per_unit`
passes through `pd.to_numeric(...).fillna(1)` untouched, so the built
reference map can hold an entry with `servings_per_unit < 0`. -/
theorem C6_claim_counterexample :
    ¬(∀ p ∈ load_food_reference [⟨"x", "grains", some (-2)⟩],
        0 ≤ (Prod.snd p).servings_per_unit) := by
  decide

/-- A dict assignment under one key leaves the entry of every other key
unchanged. -/
theorem lookup_insertReplace_ne (m : List (String × RefEntry)) (k k' : String) (v : RefEntry)
    (h : k' ≠ k) : List.lookup k' (insertReplace m k v) = List.lookup k' m := by
  have hbeq : (k' == k) = false := beq_eq_false_iff_ne.mpr h
  induction m with
  | nil => simp [insertReplace, List.lookup, hbeq]
  | cons p rest ih =>
    obtain ⟨k0, v0⟩ := p
    by_cases hk : k0 = k
    · subst hk
      simp only [insertReplace, if_pos rfl, List.lookup, hbeq]
    · simp only [insertReplace, if_neg hk, List.lookup]
      by_cases h0 : k' = k0
      · simp [beq_iff_eq.mpr h0]
      · simp only [beq_eq_false_iff_ne.mpr h0]
        exact ih

/-- Writing the rows after a given one into the dict does not disturb
its entry, as long as none of them carries the same normalized name. -/
theorem lookup_load_rows_preserved (key : String) :
    ∀ (rows : List RefRow) (m : List (String × RefEntry)),
      (∀ row ∈ rows, normName row.item_name ≠ key) →
      List.lookup key
          (rows.foldl
            (fun m row =>
              insertReplace m (normName row.item_name)
                ⟨normName row.item_category, row.servings_per_unit.getD 1⟩)
            m)
        = List.lookup key m
  | [], _, _ => rfl
  | row :: rest, m, h => by
    rw [List.foldl_cons,
      lookup_load_rows_preserved key rest _ (fun x hx => h x (List.mem_cons_of_mem _ hx)),
      lookup_insertReplace_ne m _ key _ (Ne.symm (h row (List.mem_cons_self _ _)))]

/-- C6 (amended): every entry of the reference map is exactly the entry
of the last input row carrying its normalized name: for a row `r` not
followed by any row with the same normalized name, the map stores `r`'s
raw category and its `servings_per_unit` with a missing or non-numeric
cell coerced to `1` (a negative numeric value is kept as is, so
`servings_per_unit ≥ 0` does not hold in general). -/
theorem C6_reference_last_wins (p1 : List RefRow) (r : RefRow) (p2 : List RefRow)
    (hlast : ∀ row ∈ p2, normName row.item_name ≠ normName r.item_name) :
    List.lookup (normName r.item_name) (load_food_reference (p1 ++ r :: p2))
      = some ⟨normName r.item_category, r.servings_per_unit.getD 1⟩ := by
  unfold load_food_reference
  rw [List.foldl_append, List.foldl_cons,
    lookup_load_rows_preserved (normName r.item_name) p2 _ hlast]
  exact lookup_insertReplace _ _ _

/-- C6 witness: the entry for the name x is the second row's (overriding
the first row's, which has the same name up to trimming and case), its
missing `servings_per_unit` is coerced to `1`, and the later banana row
does not disturb it. -/
theorem C6_reference_last_wins_witness :
    (∀ row ∈ ([⟨"banana", "milk & dairy", some 3⟩] : List RefRow),
        normName row.item_name ≠ normName (RefRow.mk "x" "oil" none).item_name)
      ∧ List.lookup (normName (RefRow.mk "x" "oil" none).item_name)
          (load_food_reference
            ([⟨" X ", "Grains", none⟩] ++ (RefRow.mk "x" "oil" none)
              :: [⟨"banana", "milk & dairy", some 3⟩]))
        = some ⟨normName (RefRow.mk "x" "oil" none).item_category,
            (RefRow.mk "x" "oil" none).servings_per_unit.getD 1⟩ :=
  ⟨by decide,
    C6_reference_last_wins [⟨" X ", "Grains", none⟩] (RefRow.mk "x" "oil" none)
      [⟨"banana", "milk & dairy", some 3⟩] (by decide)⟩

/-- The name list of a scanned item list is unchanged. -/
theorem allocScan_names_list (category source : String) (items : List InvItem) (nl : ℚ) :
    (allocScan category source items nl).items.map (fun it => it.item_name)
      = items.map (fun it => it.item_name) := by
  have h := congrArg (List.map Prod.fst) (allocScan_items_names category source items nl)
  simpa [List.map_map, Function.comp] using h

/-- Transport of a name-avoidance fact along an equality of name lists. -/
theorem avoids_of_names_eq {l l0 : List InvItem} {s : String}
    (h : l.map (fun it => it.item_name) = l0.map (fun it => it.item_name))
    (h0 : ∀ it ∈ l0, it.item_name ≠ s) : ∀ it ∈ l, it.item_name ≠ s := by
  intro it hit
  have hmem : it.item_name ∈ l0.map (fun it => it.item_name) := by
    rw [← h]
    exact List.mem_map_of_mem _ hit
  obtain ⟨x, hx, hxe⟩ := List.mem_map.mp hmem
  rw [← hxe]
  exact h0 x hx

theorem allocScan_items_avoid (category source s : String) (items : List InvItem) (nl : ℚ)
    (h : ∀ it ∈ items, it.item_name ≠ s) :
    ∀ it ∈ (allocScan category source items nl).items, it.item_name ≠ s :=
  avoids_of_names_eq (allocScan_names_list category source items nl) h

theorem allocScan_used_avoid (category source s : String) (items : List InvItem) (nl : ℚ)
    (h : ∀ it ∈ items, it.item_name ≠ s) :
    ∀ u ∈ (allocScan category source items nl).used, u.item_name ≠ s := by
  intro u hu
  obtain ⟨x, hx, hxe⟩ := List.mem_map.mp (allocScan_used_name category source items nl u hu)
  rw [← hxe]
  exact h x hx

/-- A name absent from both input lists appears in no usage record of
`allocate_category` and in neither output list. -/
theorem allocate_category_avoids (bl ml : List InvItem) (c : String) (n : ℚ) (s : String)
    (hb : ∀ it ∈ bl, it.item_name ≠ s) (hm : ∀ it ∈ ml, it.item_name ≠ s) :
    (∀ u ∈ (allocate_category bl ml c n).used_details, u.item_name ≠ s)
      ∧ (∀ it ∈ (allocate_category bl ml c n).box_list, it.item_name ≠ s)
      ∧ (∀ it ∈ (allocate_category bl ml c n).main_list, it.item_name ≠ s) := by
  by_cases h : 0 < (allocScan c "box" bl n).needed_left
  · rw [allocate_category_of_short bl ml c n h]
    dsimp only
    refine ⟨?_, allocScan_items_avoid c "box" s bl n hb,
      allocScan_items_avoid c "main" s ml _ hm⟩
    intro u hu
    rcases List.mem_append.mp hu with hu | hu
    · exact allocScan_used_avoid c "box" s bl n hb u hu
    · exact allocScan_used_avoid c "main" s ml _ hm u hu
  · rw [allocate_category_of_covered bl ml c n h]
    dsimp only
    exact ⟨fun u hu => allocScan_used_avoid c "box" s bl n hb u hu,
      allocScan_items_avoid c "box" s bl n hb, hm⟩

/-- A name absent from both input lists appears in no record of
`allocate_meal` and in neither output list. -/
theorem allocate_meal_avoids (s : String) :
    ∀ (plan : List (String × ℚ)) (bl ml : List InvItem),
      (∀ it ∈ bl, it.item_name ≠ s) → (∀ it ∈ ml, it.item_name ≠ s) →
      (∀ u ∈ (allocate_meal bl ml plan).used_items, u.item_name ≠ s)
        ∧ (∀ it ∈ (allocate_meal bl ml plan).box_list, it.item_name ≠ s)
        ∧ (∀ it ∈ (allocate_meal bl ml plan).main_list, it.item_name ≠ s)
  | [], bl, ml, hb, hm => ⟨by simp [allocate_meal], by simpa [allocate_meal] using hb,
      by simpa [allocate_meal] using hm⟩
  | (cat, needed) :: tl, bl, ml, hb, hm => by
    by_cases h : needed ≤ 0
    · simpa only [allocate_meal, if_pos h] using allocate_meal_avoids s tl bl ml hb hm
    · obtain ⟨hu1, hb1, hm1⟩ := allocate_category_avoids bl ml cat needed s hb hm
      obtain ⟨hu2, hb2, hm2⟩ := allocate_meal_avoids s tl _ _ hb1 hm1
      simp only [allocate_meal, if_neg h]
      refine ⟨?_, hb2, hm2⟩
      intro u hu
      rcases List.mem_append.mp hu with hu | hu
      · exact hu1 u hu
      · exact hu2 u hu

/-- A name absent from both input lists appears in no meal entry of the
day loop and in neither output list. -/
theorem runMeals_avoids (s : String) :
    ∀ (keys : List String) (bl ml : List InvItem),
      (∀ it ∈ bl, it.item_name ≠ s) → (∀ it ∈ ml, it.item_name ≠ s) →
      (∀ meal ∈ (runMeals bl ml keys).day_meals, ∀ u ∈ meal.used_items, u.item_name ≠ s)
        ∧ (∀ it ∈ (runMeals bl ml keys).box_list, it.item_name ≠ s)
        ∧ (∀ it ∈ (runMeals bl ml keys).main_list, it.item_name ≠ s)
  | [], bl, ml, hb, hm => ⟨by simp [runMeals], by simpa [runMeals] using hb,
      by simpa [runMeals] using hm⟩
  | key :: rest, bl, ml, hb, hm => by
    obtain ⟨hu1, hb1, hm1⟩ :=
      allocate_meal_avoids s (mealRequirements key) bl ml hb hm
    by_cases h : (allocate_meal bl ml (mealRequirements key)).shortage_any = true
    · simp only [runMeals, if_pos h]
      refine ⟨?_, hb1, hm1⟩
      intro meal hmeal
      rcases List.mem_singleton.mp hmeal with he
      rw [he]
      exact hu1
    · obtain ⟨hu2, hb2, hm2⟩ := runMeals_avoids s rest _ _ hb1 hm1
      simp only [runMeals, if_neg h]
      refine ⟨?_, hb2, hm2⟩
      intro meal hmeal
      rcases List.mem_cons.mp hmeal with he | he
      · rw [he]
        exact hu1
      · exact hu2 meal he

/-- `addUsage` introduces no key beyond the existing ones and the one
being added. -/
theorem addUsage_avoids (m : List ((String × String) × ℚ)) (key : String × String) (v : ℚ)
    (s : String) (hm : ∀ p ∈ m, p.1.1 ≠ s) (hk : key.1 ≠ s) :
    ∀ p ∈ addUsage m key v, p.1.1 ≠ s := by
  induction m with
  | nil =>
    intro p hp
    rcases List.mem_singleton.mp hp with he
    rw [he]
    exact hk
  | cons q rest ih =>
    obtain ⟨k, t⟩ := q
    intro p hp
    by_cases h : k = key
    · rw [addUsage, if_pos h] at hp
      rcases List.mem_cons.mp hp with he | he
      · rw [he]
        exact h ▸ hk
      · exact hm p (List.mem_cons_of_mem _ he)
    · rw [addUsage, if_neg h] at hp
      rcases List.mem_cons.mp hp with he | he
      · rw [he]
        exact hm (k, t) (List.mem_cons_self _ _)
      · exact ih (fun q hq => hm q (List.mem_cons_of_mem _ hq)) p he

/-- Accumulating records whose names avoid `s` keeps both usage maps
clear of `s`. -/
theorem foldl_addRecord_avoids (s : String) :
    ∀ (recs : List UsageRecord)
      (maps : List ((String × String) × ℚ) × List ((String × String) × ℚ)),
      (∀ p ∈ maps.1, p.1.1 ≠ s) → (∀ p ∈ maps.2, p.1.1 ≠ s) →
      (∀ u ∈ recs, u.item_name ≠ s) →
      (∀ p ∈ (recs.foldl addRecord maps).1, p.1.1 ≠ s)
        ∧ (∀ p ∈ (recs.foldl addRecord maps).2, p.1.1 ≠ s)
  | [], _, h1, h2, _ => ⟨h1, h2⟩
  | u :: rest, maps, h1, h2, hr => by
    rw [List.foldl_cons]
    have hu : u.item_name ≠ s := hr u (List.mem_cons_self _ _)
    refine foldl_addRecord_avoids s rest (addRecord maps u) ?_ ?_
      (fun x hx => hr x (List.mem_cons_of_mem _ hx))
    · unfold addRecord
      by_cases hsrc : u.source = "box"
      · rw [if_pos hsrc]
        exact addUsage_avoids maps.1 _ _ s h1 hu
      · rw [if_neg hsrc]
        exact h1
    · unfold addRecord
      by_cases hsrc : u.source = "box"
      · rw [if_pos hsrc]
        exact h2
      · rw [if_neg hsrc]
        exact addUsage_avoids maps.2 _ _ s h2 hu

/-- Accumulating the records of meals whose names avoid `s` keeps both
usage maps clear of `s`. -/
theorem foldl_meals_avoids (s : String) :
    ∀ (meals : List MealEntry)
      (maps : List ((String × String) × ℚ) × List ((String × String) × ℚ)),
      (∀ p ∈ maps.1, p.1.1 ≠ s) → (∀ p ∈ maps.2, p.1.1 ≠ s) →
      (∀ meal ∈ meals, ∀ u ∈ meal.used_items, u.item_name ≠ s) →
      (∀ p ∈ (meals.foldl (fun acc meal => meal.used_items.foldl addRecord acc) maps).1,
          p.1.1 ≠ s)
        ∧ (∀ p ∈ (meals.foldl (fun acc meal => meal.used_items.foldl addRecord acc) maps).2,
            p.1.1 ≠ s)
  | [], _, h1, h2, _ => ⟨h1, h2⟩
  | meal :: rest, maps, h1, h2, hr => by
    rw [List.foldl_cons]
    obtain ⟨g1, g2⟩ := foldl_addRecord_avoids s meal.used_items maps h1 h2
      (hr meal (List.mem_cons_self _ _))
    exact foldl_meals_avoids s rest _ g1 g2 (fun m hm => hr m (List.mem_cons_of_mem _ hm))

/-- Names avoided by every meal are avoided by both day summaries. -/
theorem summarize_day_usage_avoids (day_meals : List MealEntry) (s : String)
    (h : ∀ meal ∈ day_meals, ∀ u ∈ meal.used_items, u.item_name ≠ s) :
    (∀ e ∈ (summarize_day_usage day_meals).1, e.item_name ≠ s)
      ∧ (∀ e ∈ (summarize_day_usage day_meals).2, e.item_name ≠ s) := by
  obtain ⟨g1, g2⟩ := foldl_meals_avoids s day_meals ([], [])
    (by simp) (by simp) h
  constructor
  · intro e he
    obtain ⟨p, hp, hpe⟩ := List.mem_map.mp he
    rw [← hpe]
    exact g1 p hp
  · intro e he
    obtain ⟨p, hp, hpe⟩ := List.mem_map.mp he
    rw [← hpe]
    exact g2 p hp

/-- A day's emitted info avoids the name `s` entirely: no meal usage
record, and no entry of either summary, mentions it. -/
def dayAvoids (s : String) (d : DayInfo) : Prop :=
  (∀ meal ∈ d.meals, ∀ u ∈ meal.used_items, u.item_name ≠ s)
    ∧ (∀ l, d.day_box_usage = some l → ∀ e ∈ l, e.item_name ≠ s)
    ∧ (∀ l, d.day_main_usage = some l → ∀ e ∈ l, e.item_name ≠ s)

/-- A name absent from both input lists is absent from a processed day's
info and from its output lists. -/
theorem processDay_avoids (day_num : Nat) (bl ml : List InvItem) (s : String)
    (hb : ∀ it ∈ bl, it.item_name ≠ s) (hm : ∀ it ∈ ml, it.item_name ≠ s) :
    dayAvoids s (processDay day_num bl ml).info
      ∧ (∀ it ∈ (processDay day_num bl ml).box_list, it.item_name ≠ s)
      ∧ (∀ it ∈ (processDay day_num bl ml).main_list, it.item_name ≠ s) := by
  obtain ⟨hmeals, hb1, hm1⟩ := runMeals_avoids s MEAL_ORDER bl ml hb hm
  unfold processDay
  by_cases h : (runMeals bl ml MEAL_ORDER).shortage_for_day = true
  · rw [if_pos h]
    dsimp only
    exact ⟨⟨by simp, by simp, by simp⟩, hb, hm⟩
  · rw [if_neg h]
    dsimp only
    obtain ⟨hs1, hs2⟩ :=
      summarize_day_usage_avoids (runMeals bl ml MEAL_ORDER).day_meals s hmeals
    refine ⟨⟨hmeals, ?_, ?_⟩, hb1, hm1⟩
    · intro l hl
      rw [Option.some.injEq] at hl
      rw [← hl]
      exact hs1
    · intro l hl
      rw [Option.some.injEq] at hl
      rw [← hl]
      exact hs2

/-- A name absent from both starting lists is avoided by every emitted
day of the day loop. -/
theorem runDays_avoids (s : String) :
    ∀ (days : List Nat) (bl ml : List InvItem),
      (∀ it ∈ bl, it.item_name ≠ s) → (∀ it ∈ ml, it.item_name ≠ s) →
      ∀ d ∈ (runDays days bl ml).1, dayAvoids s d
  | [], _, _, _, _ => by simp [runDays]
  | day :: rest, bl, ml, hb, hm => by
    obtain ⟨hinfo, hb1, hm1⟩ := processDay_avoids day bl ml s hb hm
    intro d hd
    simp only [runDays] at hd
    rcases List.mem_cons.mp hd with he | he
    · rw [he]
      exact hinfo
    · exact runDays_avoids s rest _ _ hb1 hm1 d he

/-- The day loop emits one `day_info` per day number. -/
theorem runDays_length : ∀ (days : List Nat) (bl ml : List InvItem),
    (runDays days bl ml).1.length = days.length
  | [], _, _ => rfl
  | _ :: rest, bl, ml => by
    simp only [runDays, List.length_cons]
    rw [runDays_length rest]

/-- A row skipped by the loaders (reference miss or unmapped category)
produces no inventory item. -/
theorem rowToItem_skip (ref_map : List (String × RefEntry)) (row : InvRow)
    (h : List.lookup (normName row.item_name) ref_map = none
      ∨ ∃ e, List.lookup (normName row.item_name) ref_map = some e
          ∧ List.lookup e.raw_category CATEGORY_MAP = none) :
    rowToItem ref_map row = none := by
  rcases h with h | ⟨e, he, hc⟩
  · simp only [rowToItem, h]
  · simp only [rowToItem, he, hc]

/-- An emitted inventory item keeps its row's original item name. -/
theorem rowToItem_name (ref_map : List (String × RefEntry)) (row : InvRow) (it : InvItem)
    (h : rowToItem ref_map row = some it) : it.item_name = row.item_name := by
  cases hl : List.lookup (normName row.item_name) ref_map with
  | none =>
    simp only [rowToItem, hl] at h
    exact Option.noConfusion h
  | some e =>
    cases hc : List.lookup e.raw_category CATEGORY_MAP with
    | none =>
      simp only [rowToItem, hl, hc] at h
      exact Option.noConfusion h
    | some cat =>
      simp only [rowToItem, hl, hc, Option.some.injEq] at h
      rw [← h]

/-- If every row named `s` is skipped, no built item is named `s`. -/
theorem builder_avoids (ref_map : List (String × RefEntry)) (rows : List InvRow) (s : String)
    (h : ∀ row ∈ rows, row.item_name = s → rowToItem ref_map row = none) :
    ∀ it ∈ rows.filterMap (rowToItem ref_map), it.item_name ≠ s := by
  intro it hit heq
  obtain ⟨row, hrow, hsome⟩ := List.mem_filterMap.mp hit
  have hname := rowToItem_name ref_map row it hsome
  rw [h row hrow (hname.symm.trans heq)] at hsome
  cases hsome

/-- C7: an inventory row whose normalized name misses the reference map,
or whose raw category is unmapped, is skipped by both loaders: it yields
no inventory item, its name appears in no usage record or summary of the
whole month plan, and the month plan still emits all 30 days. -/
theorem C7_unknown_rows_skipped (ref_map : List (String × RefEntry))
    (box_rows main_rows : List InvRow) (s : String)
    (hskip : ∀ row ∈ box_rows ++ main_rows, row.item_name = s →
      List.lookup (normName row.item_name) ref_map = none
        ∨ ∃ e, List.lookup (normName row.item_name) ref_map = some e
            ∧ List.lookup e.raw_category CATEGORY_MAP = none) :
    (∀ it ∈ load_senior_box_list ref_map box_rows, it.item_name ≠ s)
      ∧ (∀ it ∈ load_main_inventory_items ref_map main_rows, it.item_name ≠ s)
      ∧ (∀ d ∈ (generate_monthly_plan_core (load_senior_box_list ref_map box_rows)
            (load_main_inventory_items ref_map main_rows)).final_daily_plan,
          dayAvoids s d)
      ∧ (generate_monthly_plan_core (load_senior_box_list ref_map box_rows)
          (load_main_inventory_items ref_map main_rows)).final_daily_plan.length = 30 := by
  have hbskip : ∀ row ∈ box_rows, row.item_name = s → rowToItem ref_map row = none :=
    fun row hr he => rowToItem_skip ref_map row (hskip row (List.mem_append_left _ hr) he)
  have hmskip : ∀ row ∈ main_rows, row.item_name = s → rowToItem ref_map row = none :=
    fun row hr he => rowToItem_skip ref_map row (hskip row (List.mem_append_right _ hr) he)
  have hb := builder_avoids ref_map box_rows s hbskip
  have hm := builder_avoids ref_map main_rows s hmskip
  refine ⟨hb, hm, ?_, ?_⟩
  · unfold generate_monthly_plan_core
    exact runDays_avoids s _ _ _ hb hm
  · unfold generate_monthly_plan_core
    rw [runDays_length]
    simp

/-- C7 witness: a box row naming an item missing from the reference
table. -/
theorem C7_unknown_rows_skipped_witness :
    (∀ row ∈ ([⟨"Mystery", some 5⟩] : List InvRow) ++ ([] : List InvRow),
        row.item_name = "Mystery" →
        List.lookup (normName row.item_name) [("apple", (⟨"grains", 2⟩ : RefEntry))] = none
          ∨ ∃ e, List.lookup (normName row.item_name)
                [("apple", (⟨"grains", 2⟩ : RefEntry))] = some e
              ∧ List.lookup e.raw_category CATEGORY_MAP = none)
      ∧ ((∀ it ∈ load_senior_box_list [("apple", ⟨"grains", 2⟩)] [⟨"Mystery", some 5⟩],
            it.item_name ≠ "Mystery")
          ∧ (∀ it ∈ load_main_inventory_items [("apple", ⟨"grains", 2⟩)] [],
              it.item_name ≠ "Mystery")
          ∧ (∀ d ∈ (generate_monthly_plan_core
                (load_senior_box_list [("apple", ⟨"grains", 2⟩)] [⟨"Mystery", some 5⟩])
                (load_main_inventory_items [("apple", ⟨"grains", 2⟩)] [])).final_daily_plan,
              dayAvoids "Mystery" d)
          ∧ (generate_monthly_plan_core
              (load_senior_box_list [("apple", ⟨"grains", 2⟩)] [⟨"Mystery", some 5⟩])
              (load_main_inventory_items [("apple", ⟨"grains", 2⟩)] [])).final_daily_plan.length
            = 30) :=
  ⟨by decide,
    C7_unknown_rows_skipped [("apple", ⟨"grains", 2⟩)] [⟨"Mystery", some 5⟩] [] "Mystery"
      (by decide)⟩

end MealPlanner
